import Mathlib

/-!
Verification of the yoshibookmarks storage core against its specification.

The development shallowly embeds the Python source:
- `src/yoshibookmark/models/bookmark.py` (the `Bookmark` pydantic model and its
  field validators),
- `src/yoshibookmark/utils/yaml_handler.py` (the record codec),
- `src/yoshibookmark/core/storage_manager.py` (the `StorageManager`),
- `src/yoshibookmark/core/bookmark_manager.py` (lifecycle operations used by purge).

Machine conventions: timestamps (`datetime` values and file modification times)
are modelled as `Nat` instants — ISO-8601 serialization of a timestamp parses
back to an equal instant, and `astimezone(timezone.utc)` does not change the
instant, so both are the identity here; `datetime.min` is the least instant, 0.
Python `dict`s are insertion-ordered, so they are modelled as association lists
where assignment replaces in place and inserts at the end.  Filesystem and lock
outcomes are oracle inputs to the functions that depend on them.
-/

deriving instance DecidableEq for Except

/-- Instant in time; models Python `datetime` values and file mtimes. -/
abbrev DateTime := Nat

/-- Model of Python `str.strip()`: remove leading and trailing whitespace.
Implemented over the character list so that it evaluates by kernel reduction. -/
def pyStrip (s : String) : String :=
  String.mk (((s.toList.dropWhile Char.isWhitespace).reverse.dropWhile
    Char.isWhitespace).reverse)

/-- Model of Python `str.startswith`. -/
def pyStartsWith (s pat : String) : Bool :=
  pat.toList.isPrefixOf s.toList

/-- Model of Python `s[n:]` (drop the first `n` characters). -/
def pyDrop (s : String) : Nat → String :=
  fun n => String.mk (s.toList.drop n)

/-- Model of Python `".." in s`: the string contains two consecutive dots. -/
def containsDotDot (s : String) : Bool :=
  go s.toList
where
  go : List Char → Bool
    | '.' :: '.' :: _ => true
    | _ :: rest => go rest
    | [] => false

/-- Association-list lookup, modelling Python `dict` access `d.get(k)`. -/
def alistLookup : List (String × α) → String → Option α
  | [], _ => none
  | p :: rest, k => if p.1 = k then some p.2 else alistLookup rest k

/-- Association-list assignment, modelling Python `d[k] = v`: an existing key
keeps its position, a new key is appended (dicts are insertion-ordered). -/
def alistSet : List (String × α) → String → α → List (String × α)
  | [], k, v => [(k, v)]
  | p :: rest, k, v => if p.1 = k then (k, v) :: rest else p :: alistSet rest k v

/-- Association-list removal, modelling Python `d.pop(k, None)`. -/
def alistRemove (l : List (String × α)) (k : String) : List (String × α) :=
  l.filter (fun p => p.1 ≠ k)

/- ## The record model (`models/bookmark.py`) -/

/-- The `Bookmark` pydantic model: one bookmark record.  `url` holds the
normalized URL string (pydantic `HttpUrl` is serialized as a string). -/
structure Bookmark where
  id : String
  url : String
  title : String
  keywords : List String
  created_at : DateTime
  description : Option String
  tags : List String
  folder_path : Option String
  last_modified : Option DateTime
  last_accessed : Option DateTime
  deleted : Bool
  deleted_at : Option DateTime
  favicon_path : Option String
  screenshot_path : Option String
  storage_location : String
deriving Repr, DecidableEq

/-- The `validate_keywords` field validator: reject more than 4 raw entries,
then keep only entries that are non-empty after stripping, stripped.
The field also carries `max_length=4`, which rejects the same inputs. -/
def validate_keywords (v : List String) : Except String (List String) :=
  if 4 < v.length then .error "Maximum 4 keywords allowed"
  else .ok ((v.filter (fun k => pyStrip k ≠ "")).map (fun k => pyStrip k))

/-- The `validate_title` field validator: reject empty-after-strip, return the
stripped title. -/
def validate_title (v : String) : Except String String :=
  if pyStrip v = "" then .error "Title cannot be empty or whitespace"
  else .ok (pyStrip v)

/-- The `validate_folder_path` field validator: directory-traversal guard, then
strip. -/
def validate_folder_path (v : Option String) : Except String (Option String) :=
  match v with
  | none => .ok none
  | some s =>
    if containsDotDot s || pyStartsWith s "/" || pyStartsWith s "\\" then
      .error "Folder path cannot contain dot-dot or start with a separator (directory traversal)"
    else .ok (some (pyStrip s))

/-- The `validate_tags` field validator: keep entries non-empty after stripping,
stripped (never fails). -/
def validate_tags (v : List String) : Except String (List String) :=
  .ok ((v.filter (fun t => pyStrip t ≠ "")).map (fun t => pyStrip t))

/-- Modelled from the library: pydantic `HttpUrl` validation and normalization.
Accepts strings with scheme `http` or `https` and a nonempty remainder, and
normalizes by appending a root path when the authority has no path.  The model
keeps the property used by the codec: a normalized URL re-validates to itself. -/
def parseHttpUrl (s : String) : Option String :=
  let rest :=
    if pyStartsWith s "http://" then some (pyDrop s 7)
    else if pyStartsWith s "https://" then some (pyDrop s 8)
    else none
  match rest with
  | none => none
  | some r =>
    if r = "" then none
    else if r.toList.contains '/' then some s
    else some (s ++ "/")

/- ## The record codec (`utils/yaml_handler.py`) -/

/-- A parsed YAML mapping holding the (optionally present) bookmark fields.
`none` models a key that is absent or explicitly `null` — pydantic treats both
as "use the default".  This is the value `yaml.safe_load` produces for a
well-formed record document. -/
structure RawData where
  id : Option String := none
  url : Option String := none
  title : Option String := none
  keywords : Option (List String) := none
  created_at : Option DateTime := none
  description : Option String := none
  tags : Option (List String) := none
  folder_path : Option String := none
  last_modified : Option DateTime := none
  last_accessed : Option DateTime := none
  deleted : Option Bool := none
  deleted_at : Option DateTime := none
  favicon_path : Option String := none
  screenshot_path : Option String := none
  storage_location : Option String := none
deriving Repr, DecidableEq

/-- Pydantic validation failure for one field. -/
inductive VErr
  | missingField (f : String)
  | invalidField (f : String) (msg : String)
deriving Repr, DecidableEq

/-- Render a pydantic `ValidationError` to the message text wrapped by the
codec. -/
def vErrMsg : VErr → String
  | .missingField f => s!"Field required: {f}"
  | .invalidField f m => s!"Invalid value for {f}: {m}"

/-- Model of `Bookmark(**data)`: pydantic construction from parsed data.
Fields `url`, `title`, `storage_location` are required (declared with `...`);
`id` defaults to a fresh UUID (`freshId`) and `created_at` to the current time
(`now`) via their `default_factory`; the remaining fields default to `None`,
`[]` or `False`.  Constraints (`min_length`/`max_length`) and the field
validators of `models/bookmark.py` are applied. -/
def mkBookmark (freshId : String) (now : DateTime) (d : RawData) :
    Except VErr Bookmark := do
  let urlStr ← match d.url with
    | none => Except.error (.missingField "url")
    | some s => Except.ok s
  let url ← match parseHttpUrl urlStr with
    | none => Except.error (.invalidField "url" "not a valid HTTP URL")
    | some u => Except.ok u
  let titleRaw ← match d.title with
    | none => Except.error (.missingField "title")
    | some s => Except.ok s
  if titleRaw.length < 1 || 500 < titleRaw.length then
    Except.error (.invalidField "title" "length out of range") else
  let title ← match validate_title titleRaw with
    | .error m => Except.error (.invalidField "title" m)
    | .ok t => Except.ok t
  let keywords ← match validate_keywords (d.keywords.getD []) with
    | .error m => Except.error (.invalidField "keywords" m)
    | .ok ks => Except.ok ks
  match d.description with
  | some s =>
    if 5000 < s.length then
      Except.error (.invalidField "description" "length out of range")
    else Except.ok ()
  | none => Except.ok ()
  let tags ← match validate_tags (d.tags.getD []) with
    | .error m => Except.error (.invalidField "tags" m)
    | .ok ts => Except.ok ts
  let folder_path ← match validate_folder_path d.folder_path with
    | .error m => Except.error (.invalidField "folder_path" m)
    | .ok fp => Except.ok fp
  let storage_location ← match d.storage_location with
    | none => Except.error (.missingField "storage_location")
    | some s => Except.ok s
  Except.ok
    { id := d.id.getD freshId
      url := url
      title := title
      keywords := keywords
      created_at := d.created_at.getD now
      description := d.description
      tags := tags
      folder_path := folder_path
      last_modified := d.last_modified
      last_accessed := d.last_accessed
      deleted := d.deleted.getD false
      deleted_at := d.deleted_at
      favicon_path := d.favicon_path
      screenshot_path := d.screenshot_path
      storage_location := storage_location }

/-- Model of `bookmark.model_dump(mode='json')` followed by the explicit
`str(url)` conversion in `serialize_bookmark`: every model field appears in the
emitted mapping, with `None` fields emitted as `null` (here: `none`).
ISO-8601 timestamps and URL strings round-trip exactly, so datetime and URL
values are carried unchanged. -/
def dumpBookmark (b : Bookmark) : RawData :=
  { id := some b.id
    url := some b.url
    title := some b.title
    keywords := some b.keywords
    created_at := some b.created_at
    description := b.description
    tags := some b.tags
    folder_path := b.folder_path
    last_modified := b.last_modified
    last_accessed := b.last_accessed
    deleted := some b.deleted
    deleted_at := b.deleted_at
    favicon_path := b.favicon_path
    screenshot_path := b.screenshot_path
    storage_location := some b.storage_location }

/-- Outcome of `yaml.safe_load` on a byte stream: the parse step of
`deserialize_bookmark`.  `malformed` is a `yaml.YAMLError` raise, `empty`
is a `None` result, `record` is a parsed mapping. -/
inductive ParseResult
  | malformed (msg : String)
  | empty
  | record (data : RawData)
deriving Repr, DecidableEq

/-- The `YAMLError` raises of `deserialize_bookmark`, distinguished by the two
raise sites: `except yaml.YAMLError` produces the "Invalid YAML format" wrap
and `except Exception` produces the "Failed to deserialize bookmark" wrap. -/
inductive YErr
  | invalidFormat (msg : String)
  | deserializeFailed (msg : String)
deriving Repr, DecidableEq

/-- The `deserialize_bookmark` function of `utils/yaml_handler.py`.  A parse
failure is wrapped as "Invalid YAML format"; an empty document and any
exception from `Bookmark(**data)` (pydantic `ValidationError` included) are
caught by the generic handler and wrapped as "Failed to deserialize bookmark".
`freshId` and `now` feed the pydantic `default_factory` calls. -/
def deserialize_bookmark (freshId : String) (now : DateTime)
    (input : ParseResult) : Except YErr Bookmark :=
  match input with
  | .malformed m => .error (.invalidFormat s!"Invalid YAML format: {m}")
  | .empty =>
      .error (.deserializeFailed "Failed to deserialize bookmark: YAML content is empty")
  | .record d =>
      match mkBookmark freshId now d with
      | .ok b => .ok b
      | .error e =>
          .error (.deserializeFailed s!"Failed to deserialize bookmark: {vErrMsg e}")

/-- The `serialize_bookmark` function: `model_dump(mode='json')`, URL cast to a
string, then `yaml.safe_dump`.  The emitted text is modelled by its parse
result: `safe_dump` of a mapping always emits a document that `safe_load`
parses back to the same mapping. -/
def serialize_bookmark (b : Bookmark) : ParseResult :=
  .record (dumpBookmark b)

/-- The `validate_yaml_structure` helper of `utils/yaml_handler.py`: checks the
four keys `id`, `url`, `title`, `storage_location` are present.  It is defined
in the codec module but not invoked by `deserialize_bookmark`. -/
def validate_yaml_structure (d : RawData) : Except String Unit :=
  let missing :=
    (if d.id.isNone then ["id"] else []) ++
    (if d.url.isNone then ["url"] else []) ++
    (if d.title.isNone then ["title"] else []) ++
    (if d.storage_location.isNone then ["storage_location"] else [])
  let joined := String.intercalate ", " missing
  if missing.isEmpty then .ok ()
  else .error s!"Missing required fields in YAML: {joined}"

/-- A valid record: one that pydantic validation has already produced, i.e. a
fixed point of every field validator and constraint of `models/bookmark.py`. -/
def validBookmark (b : Bookmark) : Bool :=
  decide (parseHttpUrl b.url = some b.url ∧
    1 ≤ b.title.length ∧ b.title.length ≤ 500 ∧
    validate_title b.title = .ok b.title ∧
    validate_keywords b.keywords = .ok b.keywords ∧
    validate_tags b.tags = .ok b.tags ∧
    validate_folder_path b.folder_path = .ok b.folder_path ∧
    (b.description.map String.length).getD 0 ≤ 5000)

/- ## Storage locations (`models/storage.py`) and manager state
   (`core/storage_manager.py`) -/

/-- The `StorageLocation` pydantic model (the fields the core reads). -/
structure StorageLocation where
  name : String
  path : String
  is_current : Bool := false
  is_default : Bool := false
  created_at : DateTime := 0
deriving Repr, DecidableEq

/-- Error raises of the storage and lifecycle layers.  `storageError` models
`StorageError`; `notFound` models `BookmarkNotFoundError`; `alreadyDeleted`
models `BookmarkAlreadyDeletedError`; `notDeleted` and `safetyViolation` model
the two `ValueError` raises of `restore_bookmark` and `hard_delete_bookmark`
(the spec's NotDeleted and SafetyViolation kinds). -/
inductive MgrErr
  | storageError (msg : String)
  | notFound (msg : String)
  | alreadyDeleted (msg : String)
  | notDeleted (msg : String)
  | safetyViolation (msg : String)
deriving Repr, DecidableEq

/-- One record file found in a root's `bookmarks` directory during a load:
its filename and the outcome of `load_bookmark_from_file` on it (a decoded
record, or the `YAMLError` the loader caught). -/
structure LoadFile where
  name : String
  result : Except YErr Bookmark
deriving Repr, DecidableEq

/-- Mutable state of a `StorageManager` instance.  The on-disk record files are
tracked as `(root name, record id)` pairs in `files`; `save_bookmark` writes
such a file and `delete_bookmark_file` unlinks it. -/
structure SMState where
  storage_locations : List (String × StorageLocation) := []
  in_memory_index : List (String × List (String × Bookmark)) := []
  load_errors : List (String × List String) := []
  conflicts : List (String × List String) := []
  current_storage_name : Option String := none
  files : List (String × String) := []
deriving Repr, DecidableEq

/-- The branch structure of `StorageManager._bookmark_timestamp`: prefer
`last_modified`, else `created_at`, else the source file's mtime (when `stat`
succeeds), else `datetime.min`.  `created_at` is passed as an `Option` because
the source tests it for truthiness; a `datetime` is always truthy, so callers
always pass `some`. -/
def tsChain (lm ca mt : Option DateTime) : DateTime :=
  match lm with
  | some t => t
  | none =>
    match ca with
    | some c => c
    | none =>
      match mt with
      | some m => m
      | none => 0

/-- The `_bookmark_timestamp` method, applied to a bookmark and the mtime of
its source file (`none` when `stat` raises).  Timestamps are compared as UTC
instants, so `astimezone(timezone.utc)` is the identity here. -/
def bookmark_timestamp (b : Bookmark) (mtime : Option DateTime) : DateTime :=
  tsChain b.last_modified (some b.created_at) mtime

/-- The `_choose_winner` method: last-writer-wins by best-available timestamp;
the candidate wins on a tie (`candidate_ts >= existing_ts`).  `mt` maps a
source filename to its mtime. -/
def choose_winner (mt : String → Option DateTime) (existing : Bookmark)
    (existing_path : String) (candidate : Bookmark) (candidate_path : String) :
    Bookmark :=
  let existing_ts := bookmark_timestamp existing (mt existing_path)
  let candidate_ts := bookmark_timestamp candidate (mt candidate_path)
  if existing_ts ≤ candidate_ts then candidate else existing

/-- Per-root accumulator of the `load_storage` loop: the root's index, the
`bookmark_sources` map of the loop, and the root's error and conflict logs. -/
structure LoadState where
  index : List (String × Bookmark) := []
  sources : List (String × String) := []
  errors : List String := []
  conflicts : List String := []
deriving Repr, DecidableEq

/-- The message text of a caught `YAMLError`. -/
def yErrMsg : YErr → String
  | .invalidFormat m => m
  | .deserializeFailed m => m

/-- One iteration of the `load_storage` loop over a record file: a decode
failure appends an error-log entry and skips the file; a fresh identifier is
inserted; a duplicate identifier is resolved with `_choose_winner`, the winner
replaces the index entry and one conflict-log entry naming both source files is
appended. -/
def loadStep (mt : String → Option DateTime) (st : LoadState) (f : LoadFile) :
    LoadState :=
  match f.result with
  | .error e =>
      { st with errors := st.errors ++ [s!"Corrupted YAML in {f.name}: {yErrMsg e}"] }
  | .ok b =>
      match alistLookup st.index b.id with
      | some existing =>
          let existing_path := (alistLookup st.sources b.id).getD f.name
          let conflict_msg :=
            s!"Conflict for bookmark ID {b.id}: {existing_path} vs {f.name}"
          let winner := choose_winner mt existing existing_path b f.name
          { st with
            index := alistSet st.index b.id winner
            sources := alistSet st.sources b.id
              (if winner = b then f.name else existing_path)
            conflicts := st.conflicts ++ [conflict_msg] }
      | none =>
          { st with
            index := alistSet st.index b.id b
            sources := alistSet st.sources b.id f.name }

/-- The `load_storage` loop over all enumerated record files, from the empty
per-root state the method installs before the loop. -/
def loadFold (mt : String → Option DateTime) (st : LoadState)
    (fs : List LoadFile) : LoadState :=
  fs.foldl (loadStep mt) st

/-- The `load_storage` method for one root: reset the root's index, error log
and conflict log, then absorb every enumerated record file. -/
def load_storage (st : SMState) (storage_name : String) (fs : List LoadFile)
    (mt : String → Option DateTime) : SMState :=
  let r := loadFold mt {} fs
  { st with
    in_memory_index := alistSet st.in_memory_index storage_name r.index
    load_errors := alistSet st.load_errors storage_name r.errors
    conflicts := alistSet st.conflicts storage_name r.conflicts }

/-- Outcome of the filesystem and lock interactions of one `save_bookmark`
call, supplied as an oracle: lock acquisition may time out (`FileLockError`),
the protected write may raise, or both may succeed. -/
inductive DiskOutcome
  | lockFail
  | writeFail
  | ok
deriving Repr, DecidableEq

/-- Observable events of a `save_bookmark` call, in order of occurrence. -/
inductive SaveEv
  | lockAcquire
  | fileWrite
  | lockRelease
  | indexUpdate
deriving Repr, DecidableEq

/-- Set one record in the in-memory index of one root, modelling the two
statements `self.in_memory_index.setdefault` shape of `save_bookmark`: create
the root's map when missing, then assign the id. -/
def indexPut (idx : List (String × List (String × Bookmark)))
    (storage_name : String) (b : Bookmark) :
    List (String × List (String × Bookmark)) :=
  let cur := (alistLookup idx storage_name).getD []
  alistSet idx storage_name (alistSet cur b.id b)

/-- The `save_bookmark` method.  Unknown root: `StorageError` before any I/O.
Otherwise: acquire the file lock, write the record file while holding it,
release, and only then update the in-memory index.  A `FileLockError` or a
write error is re-raised as `StorageError` and no state mutation has happened.
Returns the outcome, the manager state after the call, and the event trace. -/
def save_bookmark (st : SMState) (b : Bookmark) (storage_name : String)
    (oc : DiskOutcome) : Except MgrErr Unit × SMState × List SaveEv :=
  if (alistLookup st.storage_locations storage_name).isNone then
    (.error (.storageError s!"Storage not found: {storage_name}"), st, [])
  else
    match oc with
    | .lockFail =>
        (.error (.storageError s!"Could not acquire lock for {b.id}"), st, [])
    | .writeFail =>
        (.error (.storageError s!"Failed to save bookmark {b.id}"), st,
          [.lockAcquire, .lockRelease])
    | .ok =>
        (.ok (),
          { st with
            files :=
              if st.files.contains (storage_name, b.id) then st.files
              else st.files ++ [(storage_name, b.id)]
            in_memory_index := indexPut st.in_memory_index storage_name b },
          [.lockAcquire, .fileWrite, .lockRelease, .indexUpdate])

/-- Scan all roots' indices in configuration order and return the first match,
modelling the `storage_name is None` branch of `get_bookmark_by_id`. -/
def lookupAllRoots : List (String × List (String × Bookmark)) → String →
    Option Bookmark
  | [], _ => none
  | p :: rest, bid =>
      match alistLookup p.2 bid with
      | some b => some b
      | none => lookupAllRoots rest bid

/-- The `get_bookmark_by_id` method: look up one root's index, or scan all
roots in order. -/
def get_bookmark_by_id (st : SMState) (bookmark_id : String)
    (storage_name : Option String) : Option Bookmark :=
  match storage_name with
  | some n => alistLookup ((alistLookup st.in_memory_index n).getD []) bookmark_id
  | none => lookupAllRoots st.in_memory_index bookmark_id

/-- The `delete_bookmark_file` method: unknown root raises `StorageError`;
otherwise unlink the record file when present (missing file is not an error)
and pop the id from that root's index when the root has an index. -/
def delete_bookmark_file (st : SMState) (bookmark_id : String)
    (storage_name : String) : Except MgrErr SMState :=
  if (alistLookup st.storage_locations storage_name).isNone then
    .error (.storageError s!"Storage not found: {storage_name}")
  else
    .ok { st with
      files := st.files.filter (fun p => p ≠ (storage_name, bookmark_id))
      in_memory_index := st.in_memory_index.map
        (fun p => if p.1 = storage_name then (p.1, alistRemove p.2 bookmark_id) else p) }

/-- All conflict messages across roots in order, each prefixed with its root
name — the `merged` list of `get_recent_conflicts`. -/
def mergedConflicts (st : SMState) : List String :=
  st.conflicts.foldl (fun acc p => acc ++ p.2.map (fun m => s!"[{p.1}] {m}")) []

/-- Model of the Python slice `l[-limit:]` for a natural `limit`: the last
`limit` elements, except that `limit = 0` yields the whole list
(`l[-0:]` is `l[0:]`). -/
def pySliceLast (l : List String) (limit : Nat) : List String :=
  if limit = 0 then l else l.drop (l.length - limit)

/-- The `get_recent_conflicts` method. -/
def get_recent_conflicts (st : SMState) (limit : Nat) : List String :=
  pySliceLast (mergedConflicts st) limit

/-- The `_select_current_storage_name` method: the first root flagged
`is_current`, else the first configured root, else none. -/
def select_current_storage_name (st : SMState) : Option String :=
  match st.storage_locations.find? (fun p => p.2.is_current) with
  | some p => some p.1
  | none => st.storage_locations.head?.map Prod.fst

/-- One configured root as `initialize` sees it: its descriptor, the outcome of
`_validate_storage_location` on it (a filesystem probe, supplied as an oracle),
and the record files its `bookmarks` directory holds. -/
structure RootSpec where
  loc : StorageLocation
  valid : Bool
  files : List LoadFile
deriving Repr, DecidableEq

/-- The `initialize` method: for each configured root in order, validate its
accessibility, register it, and load it; the first validation failure re-raises
`StorageError` and stops the loop.  After all roots load, the current root name
is resolved.  Returns the outcome and the manager state after the call. -/
def initializeManager (st : SMState) (roots : List RootSpec)
    (mt : String → Option DateTime) : Except MgrErr Unit × SMState :=
  match roots with
  | [] => (.ok (), { st with current_storage_name := select_current_storage_name st })
  | r :: rest =>
      if r.valid then
        let st1 := { st with
          storage_locations := alistSet st.storage_locations r.loc.name r.loc }
        let st2 := load_storage st1 r.loc.name r.files mt
        initializeManager st2 rest mt
      else
        (.error (.storageError s!"Storage path not accessible: {r.loc.path}"), st)

/- ## Lifecycle operations (`core/bookmark_manager.py`) -/

/-- The `get_bookmark` manager operation: `BookmarkNotFoundError` when the id
is absent from the addressed root(s). -/
def get_bookmark (st : SMState) (bookmark_id : String)
    (storage_name : Option String) : Except MgrErr Bookmark :=
  match get_bookmark_by_id st bookmark_id storage_name with
  | none => .error (.notFound s!"Bookmark not found: {bookmark_id}")
  | some b => .ok b

/-- The `hard_delete_bookmark` manager operation (the spec's `purge`): fetch
the record (`NotFound` when absent); refuse unless it is soft-deleted — the
source raises `ValueError` with the safety message, the spec's
SafetyViolation; on success remove the record file and index entry via
`delete_bookmark_file`. -/
def hard_delete_bookmark (st : SMState) (bookmark_id : String)
    (storage_name : Option String) : Except MgrErr SMState :=
  match get_bookmark_by_id st bookmark_id storage_name with
  | none => .error (.notFound s!"Bookmark not found: {bookmark_id}")
  | some b =>
      if !b.deleted then
        .error (.safetyViolation
          s!"Bookmark {bookmark_id} must be soft-deleted before hard delete")
      else
        delete_bookmark_file st bookmark_id b.storage_location

/-- Structural well-formedness of a manager state, as the running system
maintains it: every root that has an index is a configured root, and every
index entry is keyed by its record's id with the record owned by that root. -/
def wellFormedB (st : SMState) : Bool :=
  st.in_memory_index.all (fun p =>
    (alistLookup st.storage_locations p.1).isSome &&
    p.2.all (fun q => q.1 == q.2.id && q.2.storage_location == p.1))

/-- Number of roots whose index holds the given id. -/
def idRootCount (st : SMState) (bookmark_id : String) : Nat :=
  st.in_memory_index.countP (fun p => (alistLookup p.2 bookmark_id).isSome)

/- ## Helper lemmas about the dict model -/

theorem alistLookup_set_self (l : List (String × α)) (k : String) (v : α) :
    alistLookup (alistSet l k v) k = some v := by
  induction l with
  | nil => simp [alistSet, alistLookup]
  | cons p rest ih =>
      by_cases h : p.1 = k
      · simp [alistSet, alistLookup, h]
      · simp [alistSet, alistLookup, h, ih]

theorem alistLookup_set_ne (l : List (String × α)) (k k' : String) (v : α)
    (h : k' ≠ k) : alistLookup (alistSet l k v) k' = alistLookup l k' := by
  induction l with
  | nil => simp [alistSet, alistLookup, Ne.symm h]
  | cons p rest ih =>
      by_cases hp : p.1 = k
      · simp [alistSet, alistLookup, hp, Ne.symm h]
      · by_cases hp' : p.1 = k'
        · simp [alistSet, alistLookup, hp, hp', h]
        · simp [alistSet, alistLookup, hp, hp', ih]

theorem alistSet_length_of_none (l : List (String × α)) (k : String) (v : α)
    (h : alistLookup l k = none) :
    (alistSet l k v).length = l.length + 1 := by
  induction l with
  | nil => simp [alistSet]
  | cons p rest ih =>
      by_cases hp : p.1 = k
      · simp [alistLookup, hp] at h
      · simp [alistLookup, hp] at h
        simp [alistSet, hp, ih h]

theorem alistLookup_mem (l : List (String × α)) (k : String) (v : α)
    (h : alistLookup l k = some v) : (k, v) ∈ l := by
  induction l with
  | nil => simp [alistLookup] at h
  | cons p rest ih =>
      by_cases hp : p.1 = k
      · obtain ⟨pf, ps⟩ := p
        simp only at hp
        subst hp
        simp [alistLookup] at h
        subst h
        exact List.mem_cons_self _ _
      · simp [alistLookup, hp] at h
        exact List.mem_cons_of_mem _ (ih h)

theorem alistRemove_lookup_self (l : List (String × α)) (k : String) :
    alistLookup (alistRemove l k) k = none := by
  induction l with
  | nil => simp [alistRemove, alistLookup]
  | cons p rest ih =>
      by_cases hp : p.1 = k
      · simpa [alistRemove, List.filter, hp] using ih
      · simpa [alistRemove, List.filter, hp, alistLookup] using ih

theorem lookupAllRoots_some (l : List (String × List (String × Bookmark)))
    (bid : String) (b : Bookmark) (h : lookupAllRoots l bid = some b) :
    ∃ p ∈ l, alistLookup p.2 bid = some b := by
  induction l with
  | nil => simp [lookupAllRoots] at h
  | cons p rest ih =>
      unfold lookupAllRoots at h
      cases hp : alistLookup p.2 bid with
      | some b' =>
          rw [hp] at h
          simp at h
          exact ⟨p, List.mem_cons_self _ _, by rw [hp, h]⟩
      | none =>
          rw [hp] at h
          simp at h
          obtain ⟨q, hq, hq2⟩ := ih h
          exact ⟨q, List.mem_cons_of_mem _ hq, hq2⟩

theorem lookupAllRoots_none (l : List (String × List (String × Bookmark)))
    (bid : String) (h : ∀ p ∈ l, alistLookup p.2 bid = none) :
    lookupAllRoots l bid = none := by
  induction l with
  | nil => rfl
  | cons p rest ih =>
      unfold lookupAllRoots
      rw [h p (List.mem_cons_self _ _)]
      exact ih (fun q hq => h q (List.mem_cons_of_mem _ hq))

theorem countP_two_le {l : List α} {pr : α → Bool} {p q : α}
    (hp : p ∈ l) (hq : q ∈ l) (hne : p ≠ q)
    (hpp : pr p = true) (hqq : pr q = true) : 2 ≤ l.countP pr := by
  induction l with
  | nil => simp at hp
  | cons a rest ih =>
      rcases List.mem_cons.mp hp with hpa | hpr
      · rcases List.mem_cons.mp hq with hqa | hqr
        · exact absurd (hpa.trans hqa.symm) hne
        · have ha : pr a = true := hpa ▸ hpp
          have h1 : 0 < rest.countP pr := List.countP_pos_iff.mpr ⟨q, hqr, hqq⟩
          rw [List.countP_cons, ha]
          simpa using h1
      · rcases List.mem_cons.mp hq with hqa | hqr
        · have ha : pr a = true := hqa ▸ hqq
          have h1 : 0 < rest.countP pr := List.countP_pos_iff.mpr ⟨p, hpr, hpp⟩
          rw [List.countP_cons, ha]
          simpa using h1
        · have := ih hpr hqr
          rw [List.countP_cons]
          omega

/- ## C10 -/

/-- C10: `get_recent_conflicts` returns at most `limit` entries — the most
recent ones, a suffix of the merged conflict list — for every `limit ≥ 1`,
while `limit = 0` returns every accumulated conflict entry, because the Python
slice `merged[-0:]` is the whole list. -/
theorem recent_conflicts_limit (st : SMState) (limit : Nat) :
    get_recent_conflicts st 0 = mergedConflicts st ∧
    (1 ≤ limit →
      (get_recent_conflicts st limit).length ≤ limit ∧
      (get_recent_conflicts st limit).IsSuffix (mergedConflicts st)) := by
  refine ⟨rfl, fun hl => ⟨?_, ?_⟩⟩
  · have hne : limit ≠ 0 := by omega
    simp [get_recent_conflicts, pySliceLast, hne]
    omega
  · have hne : limit ≠ 0 := by omega
    simp only [get_recent_conflicts, pySliceLast, hne, if_false]
    exact List.drop_suffix _ _

/-- Concrete manager state exercising the conflict-log accessor. -/
def c10State : SMState :=
  { conflicts := [("work", ["c1", "c2"]), ("personal", ["c3"])] }

theorem recent_conflicts_limit_witness :
    (get_recent_conflicts c10State 2).length ≤ 2 ∧
    (get_recent_conflicts c10State 2).IsSuffix (mergedConflicts c10State) :=
  (recent_conflicts_limit c10State 2).2 (by decide)

/- ## Inversion of pydantic construction -/

theorem mkBookmark_ok_facts (freshId : String) (now : DateTime) (d : RawData)
    (b : Bookmark) (h : mkBookmark freshId now d = .ok b) :
    d.url.isSome ∧ d.title.isSome ∧ d.storage_location.isSome ∧
    validate_keywords (d.keywords.getD []) = .ok b.keywords := by
  unfold mkBookmark at h
  simp only [bind, Except.bind] at h
  repeat' (split at h <;> try exact Except.noConfusion h)
  all_goals
    injection h with h
    subst h
    simp_all

/- ## C9 -/

/-- C9: a keywords list with more than 4 raw entries is rejected against the
unfiltered input — `validate_keywords` checks the raw length first and filters
empty entries only afterwards, so record construction fails on such input even
when filtering would leave at most 4 entries. -/
theorem keywords_limit_before_filter (v : List String) (freshId : String)
    (now : DateTime) (d : RawData) :
    (4 < v.length → validate_keywords v = .error "Maximum 4 keywords allowed") ∧
    (v.length ≤ 4 → validate_keywords v =
      .ok ((v.filter (fun k => pyStrip k ≠ "")).map (fun k => pyStrip k))) ∧
    (d.keywords = some v → 4 < v.length →
      ∀ b, mkBookmark freshId now d ≠ .ok b) := by
  refine ⟨fun hv => ?_, fun hv => ?_, fun hk hv b hok => ?_⟩
  · simp [validate_keywords, hv]
  · have : ¬ 4 < v.length := by omega
    simp [validate_keywords, this]
  · have hfacts := mkBookmark_ok_facts freshId now d b hok
    rw [hk] at hfacts
    simp only [Option.getD_some] at hfacts
    rw [validate_keywords, if_pos (by exact_mod_cast hv)] at hfacts
    exact Except.noConfusion hfacts.2.2.2

/-- Five raw keyword entries of which two are blank: filtering would leave
three, yet construction must reject the list. -/
def c9Data : RawData :=
  { url := some "https://example.com/a", title := some "Example",
    storage_location := some "work",
    keywords := some ["k1", "", "k2", " ", "k3"] }

theorem keywords_limit_before_filter_witness :
    4 < (["k1", "", "k2", " ", "k3"] : List String).length ∧
    ∀ b, mkBookmark "fresh" 0 c9Data ≠ .ok b :=
  ⟨by decide,
    (keywords_limit_before_filter ["k1", "", "k2", " ", "k3"] "fresh" 0 c9Data).2.2
      rfl (by decide)⟩

/- ## C2 -/

/-- C2: `save_bookmark` acquires the file lock, performs the file write while
holding it (the write event sits between acquire and release in the trace),
and updates the in-memory index entry for the record's id only after the write
succeeded (the index-update event follows the write, and on any failure —
unknown root, lock timeout, write error — the call returns an error and the
manager state, its index included, is exactly the state before the call). -/
theorem save_bookmark_atomic (st : SMState) (b : Bookmark)
    (storage_name : String) (oc : DiskOutcome) :
    ((save_bookmark st b storage_name oc).1 ≠ .ok () →
      (save_bookmark st b storage_name oc).2.1 = st) ∧
    ((oc = .lockFail ∨ oc = .writeFail) →
      (save_bookmark st b storage_name oc).1 ≠ .ok ()) ∧
    ((save_bookmark st b storage_name oc).1 = .ok () →
      get_bookmark_by_id (save_bookmark st b storage_name oc).2.1 b.id
          (some storage_name) = some b ∧
      (save_bookmark st b storage_name oc).2.2 =
        [.lockAcquire, .fileWrite, .lockRelease, .indexUpdate]) := by
  by_cases hn : (alistLookup st.storage_locations storage_name).isNone
  · refine ⟨fun _ => ?_, fun _ => ?_, fun hok => ?_⟩
    · simp [save_bookmark, hn]
    · simp [save_bookmark, hn]
    · rw [save_bookmark.eq_def, if_pos hn] at hok
      exact absurd hok (by simp)
  · cases oc with
    | lockFail =>
        refine ⟨fun _ => ?_, fun _ => ?_, fun hok => ?_⟩
        · simp [save_bookmark, hn]
        · simp [save_bookmark, hn]
        · rw [save_bookmark.eq_def, if_neg hn] at hok
          exact absurd hok (by simp)
    | writeFail =>
        refine ⟨fun _ => ?_, fun _ => ?_, fun hok => ?_⟩
        · simp [save_bookmark, hn]
        · simp [save_bookmark, hn]
        · rw [save_bookmark.eq_def, if_neg hn] at hok
          exact absurd hok (by simp)
    | ok =>
        refine ⟨fun hne => ?_, fun hbad => ?_, fun _ => ⟨?_, ?_⟩⟩
        · exact absurd (by simp [save_bookmark, hn]) hne
        · rcases hbad with hbad | hbad <;> exact DiskOutcome.noConfusion hbad
        · simp only [save_bookmark, if_neg hn, get_bookmark_by_id, indexPut]
          rw [alistLookup_set_self]
          simp [alistLookup_set_self]
        · simp [save_bookmark, hn]

/-- Concrete state with one configured root, used to exercise a save. -/
def c2State : SMState :=
  { storage_locations := [("work", { name := "work", path := "/tmp/work" })] }

/-- Concrete record used by the save and purge examples. -/
def c2Bookmark : Bookmark :=
  { id := "id-1", url := "https://example.com/", title := "Example",
    keywords := [], created_at := 3, description := none, tags := [],
    folder_path := none, last_modified := none, last_accessed := none,
    deleted := false, deleted_at := none, favicon_path := none,
    screenshot_path := none, storage_location := "work" }

theorem save_bookmark_atomic_witness :
    get_bookmark_by_id (save_bookmark c2State c2Bookmark "work" .ok).2.1
        c2Bookmark.id (some "work") = some c2Bookmark ∧
    (save_bookmark c2State c2Bookmark "work" .ok).2.2 =
      [.lockAcquire, .fileWrite, .lockRelease, .indexUpdate] :=
  (save_bookmark_atomic c2State c2Bookmark "work" .ok).2.2 (by decide)

/- ## C8 -/

/-- C8: during `initialize` over an ordered list of roots, the first root whose
accessibility validation fails makes the whole call raise `StorageError`, and
the roots after the failing one are neither validated nor loaded: the outcome
and resulting state are those of the run truncated right after the failing
root, whatever follows it. -/
theorem initialize_first_failure (st : SMState)
    (mt : String → Option DateTime) (good : List RootSpec) (bad : RootSpec)
    (post : List RootSpec)
    (hgood : ∀ r ∈ good, r.valid = true) (hbad : bad.valid = false) :
    initializeManager st (good ++ bad :: post) mt =
      initializeManager st (good ++ [bad]) mt ∧
    (initializeManager st (good ++ bad :: post) mt).1 =
      .error (.storageError s!"Storage path not accessible: {bad.loc.path}") := by
  induction good generalizing st with
  | nil =>
      constructor
      · simp [initializeManager, hbad]
      · simp [initializeManager, hbad]
  | cons r rest ih =>
      have hr : r.valid = true := hgood r (List.mem_cons_self _ _)
      have hrest : ∀ q ∈ rest, q.valid = true :=
        fun q hq => hgood q (List.mem_cons_of_mem _ hq)
      simp only [List.cons_append, initializeManager, hr, if_true]
      exact ih _ hrest

/-- Root descriptors used by the initialization example: one accessible root
followed by an inaccessible one and a trailing root that must never be
touched. -/
def c8Good : RootSpec :=
  { loc := { name := "work", path := "/tmp/work" }, valid := true, files := [] }

def c8Bad : RootSpec :=
  { loc := { name := "broken", path := "/nonexistent" }, valid := false, files := [] }

def c8Post : RootSpec :=
  { loc := { name := "later", path := "/tmp/later" }, valid := true, files := [] }

theorem initialize_first_failure_witness :
    initializeManager {} [c8Good, c8Bad, c8Post] (fun _ => none) =
      initializeManager {} [c8Good, c8Bad] (fun _ => none) ∧
    (initializeManager {} [c8Good, c8Bad, c8Post] (fun _ => none)).1 =
      .error (.storageError s!"Storage path not accessible: {c8Bad.loc.path}") :=
  initialize_first_failure {} (fun _ => none) [c8Good] c8Bad [c8Post]
    (by intro r hr; simp at hr; rw [hr]; rfl) rfl

/- ## C6 -/

/-- Well-formed parsed data lacking the `id` key but holding the other
required fields. -/
def c6Input : RawData :=
  { url := some "https://example.com/", title := some "Example",
    storage_location := some "personal" }

/-- C6 counterexample: decoding well-formed input that lacks `id` does not
report a missing-required-field failure — `id` has a `default_factory`, so
`deserialize_bookmark` succeeds, assigning the freshly generated identifier. -/
theorem deserialize_missing_id_cex :
    c6Input.id = none ∧
    deserialize_bookmark "fresh-uuid" 7 (.record c6Input) =
      .ok { id := "fresh-uuid", url := "https://example.com/",
            title := "Example", keywords := [], created_at := 7,
            description := none, tags := [], folder_path := none,
            last_modified := none, last_accessed := none, deleted := false,
            deleted_at := none, favicon_path := none, screenshot_path := none,
            storage_location := "personal" } := by
  exact ⟨rfl, rfl⟩

/-- C6 amended: decoding reports two distinguishable failure kinds — the
"Invalid YAML format" wrap for input that is not a well-formed instance of the
encoding, and the distinct "Failed to deserialize bookmark" wrap for
well-formed input lacking any of the required fields `url`, `title`, or
`storage_location`.  A missing `id` is defaulted, not an error; the
four-field check including `id` lives only in the `validate_yaml_structure`
helper, which the decode path does not invoke. -/
theorem deserialize_failure_kinds (freshId : String) (now : DateTime)
    (m : String) (d : RawData) :
    (deserialize_bookmark freshId now (.malformed m) =
      .error (.invalidFormat s!"Invalid YAML format: {m}")) ∧
    ((d.url = none ∨ d.title = none ∨ d.storage_location = none) →
      ∃ msg, deserialize_bookmark freshId now (.record d) =
        .error (.deserializeFailed msg)) ∧
    (∀ s t, YErr.invalidFormat s ≠ YErr.deserializeFailed t) ∧
    (d.id = none → ∃ msg, validate_yaml_structure d = .error msg) := by
  refine ⟨rfl, fun hmiss => ?_, fun s t => by simp, fun hid => ?_⟩
  · cases hmk : mkBookmark freshId now d with
    | ok b =>
        exfalso
        have hfacts := mkBookmark_ok_facts freshId now d b hmk
        rcases hmiss with hm | hm | hm <;> rw [hm] at hfacts <;> simp at hfacts
    | error e =>
        refine ⟨s!"Failed to deserialize bookmark: {vErrMsg e}", ?_⟩
        simp [deserialize_bookmark, hmk]
  · cases hv : validate_yaml_structure d with
    | ok u =>
        exfalso
        rw [validate_yaml_structure, hid] at hv
        simp at hv
    | error msg => exact ⟨msg, rfl⟩

theorem deserialize_failure_kinds_witness :
    ∃ msg, deserialize_bookmark "f" 0
        (.record { title := some "t", storage_location := some "w" }) =
      .error (.deserializeFailed msg) :=
  (deserialize_failure_kinds "f" 0 ""
      { title := some "t", storage_location := some "w" }).2.1 (Or.inl rfl)

/- ## C3 -/

/-- Mtime oracle for loads where `stat` is never consulted. -/
def mtNone : String → Option DateTime := fun _ => none

/-- C3: when a decoded record's identifier is already present in the index,
the candidate wins exactly when its best-available timestamp is later than or
equal to the existing entry's; the winner replaces the index entry (the loser
is discarded), the error log is untouched, and exactly one conflict-log entry
naming both source files is appended.  The best-available timestamp chain
prefers `last_modified`, else `created_at`, else the source file's mtime, else
the minimal timestamp. -/
theorem load_conflict_resolution (mt : String → Option DateTime)
    (st : LoadState) (f : LoadFile) (b existing : Bookmark)
    (existing_path : String)
    (hf : f.result = .ok b)
    (hix : alistLookup st.index b.id = some existing)
    (hsrc : alistLookup st.sources b.id = some existing_path) :
    (loadStep mt st f).index = alistSet st.index b.id
      (if bookmark_timestamp existing (mt existing_path) ≤
          bookmark_timestamp b (mt f.name)
        then b else existing) ∧
    (loadStep mt st f).conflicts = st.conflicts ++
      [s!"Conflict for bookmark ID {b.id}: {existing_path} vs {f.name}"] ∧
    (loadStep mt st f).errors = st.errors ∧
    (∀ t ca m0, tsChain (some t) ca m0 = t) ∧
    (∀ c m0, tsChain none (some c) m0 = c) ∧
    (∀ m0, tsChain none none (some m0) = m0) ∧
    tsChain none none none = 0 := by
  refine ⟨?_, ?_, ?_, fun t ca m0 => rfl, fun c m0 => rfl, fun m0 => rfl, rfl⟩
  · simp [loadStep, hf, hix, hsrc, choose_winner]
  · simp [loadStep, hf, hix, hsrc]
  · simp [loadStep, hf, hix]

/-- Existing index entry for the conflict example (timestamp 4). -/
def c3Existing : Bookmark :=
  { id := "dup", url := "https://a.example/", title := "Old", keywords := [],
    created_at := 1, description := none, tags := [], folder_path := none,
    last_modified := some 4, last_accessed := none, deleted := false,
    deleted_at := none, favicon_path := none, screenshot_path := none,
    storage_location := "work" }

/-- Conflicting candidate for the conflict example (timestamp 9). -/
def c3Candidate : Bookmark :=
  { c3Existing with title := "New", last_modified := some 9 }

def c3LoadState : LoadState :=
  { index := [("dup", c3Existing)], sources := [("dup", "old.yaml")] }

def c3File : LoadFile := { name := "new.yaml", result := .ok c3Candidate }

theorem load_conflict_resolution_witness :
    (loadStep mtNone c3LoadState c3File).index = [("dup", c3Candidate)] ∧
    (loadStep mtNone c3LoadState c3File).conflicts =
      ["Conflict for bookmark ID dup: old.yaml vs new.yaml"] := by
  have h := load_conflict_resolution mtNone c3LoadState c3File c3Candidate
    c3Existing "old.yaml" rfl (by decide) (by decide)
  exact ⟨by rw [h.1]; decide, by rw [h.2.1]; rfl⟩

/- ## C5 -/

/-- The record a file decodes to, when it decodes. -/
def fileRecord (f : LoadFile) : Option Bookmark :=
  match f.result with
  | .ok b => some b
  | .error _ => none

/-- Whether a file decodes. -/
def fileOk (f : LoadFile) : Bool :=
  (fileRecord f).isSome

/-- The successfully decoded records of a file list, in enumeration order. -/
def okRecords (fs : List LoadFile) : List Bookmark :=
  fs.filterMap fileRecord

theorem okRecords_cons_ok (f : LoadFile) (fs : List LoadFile) (b : Bookmark)
    (hf : f.result = .ok b) : okRecords (f :: fs) = b :: okRecords fs := by
  simp [okRecords, List.filterMap_cons, fileRecord, hf]

theorem okRecords_cons_err (f : LoadFile) (fs : List LoadFile) (e : YErr)
    (hf : f.result = .error e) : okRecords (f :: fs) = okRecords fs := by
  simp [okRecords, List.filterMap_cons, fileRecord, hf]

theorem loadFold_counts (mt : String → Option DateTime) (fs : List LoadFile) :
    ∀ s : LoadState,
      (∀ b ∈ okRecords fs, alistLookup s.index b.id = none) →
      (okRecords fs).Pairwise (fun a c => a.id ≠ c.id) →
      (loadFold mt s fs).index.length = s.index.length + fs.countP fileOk ∧
      (loadFold mt s fs).errors.length =
        s.errors.length + fs.countP (fun f => !fileOk f) := by
  induction fs with
  | nil => intro s _ _; simp [loadFold]
  | cons f rest ih =>
      intro s hfresh hpw
      have hfold : loadFold mt s (f :: rest) = loadFold mt (loadStep mt s f) rest := rfl
      cases hf : f.result with
      | error e =>
          have hok : fileOk f = false := by simp [fileOk, fileRecord, hf]
          have hrec : okRecords (f :: rest) = okRecords rest :=
            okRecords_cons_err f rest e hf
          rw [hrec] at hfresh hpw
          have hstep : loadStep mt s f =
              { s with errors :=
                  s.errors ++ [s!"Corrupted YAML in {f.name}: {yErrMsg e}"] } := by
            simp [loadStep, hf]
          obtain ⟨t1, t2⟩ := ih (loadStep mt s f) (by rw [hstep]; exact hfresh) hpw
          rw [hstep] at t1 t2
          rw [hfold, List.countP_cons, List.countP_cons, hok, hstep]
          refine ⟨?_, ?_⟩
          · rw [t1]; simp
          · rw [t2]; simp; omega
      | ok b =>
          have hok : fileOk f = true := by simp [fileOk, fileRecord, hf]
          have hrec : okRecords (f :: rest) = b :: okRecords rest :=
            okRecords_cons_ok f rest b hf
          rw [hrec] at hfresh hpw
          have hbfresh : alistLookup s.index b.id = none :=
            hfresh b (List.mem_cons_self _ _)
          have hstep : loadStep mt s f =
              { s with index := alistSet s.index b.id b
                       sources := alistSet s.sources b.id f.name } := by
            simp [loadStep, hf, hbfresh]
          have hidne : ∀ c ∈ okRecords rest, c.id ≠ b.id :=
            fun c hc => fun e => (List.rel_of_pairwise_cons hpw hc) e.symm
          obtain ⟨t1, t2⟩ := ih (loadStep mt s f)
            (by
              intro c hc
              rw [hstep]
              simpa using (alistLookup_set_ne s.index b.id c.id b (by
                simpa using hidne c hc)).trans (hfresh c (List.mem_cons_of_mem _ hc)))
            hpw.of_cons
          have hlen : (loadStep mt s f).index.length = s.index.length + 1 := by
            rw [hstep]
            simpa using alistSet_length_of_none s.index b.id b hbfresh
          have herr : (loadStep mt s f).errors.length = s.errors.length := by
            rw [hstep]
          rw [hlen] at t1
          rw [herr] at t2
          rw [hfold, List.countP_cons, List.countP_cons, hok]
          refine ⟨?_, ?_⟩
          · rw [t1]; simp; omega
          · rw [t2]; simp

/-- C5: after loading a root whose records directory holds `k` decodable files
with pairwise-distinct identifiers and `m` files that fail to decode, the
root's index holds exactly `k` entries and its error log exactly `m` entries —
no corrupt file aborts the load of the rest. -/
theorem load_completeness (st : SMState) (storage_name : String)
    (fs : List LoadFile) (mt : String → Option DateTime)
    (hdist : (okRecords fs).Pairwise (fun a c => a.id ≠ c.id)) :
    ∃ idx errs,
      alistLookup (load_storage st storage_name fs mt).in_memory_index
        storage_name = some idx ∧
      alistLookup (load_storage st storage_name fs mt).load_errors
        storage_name = some errs ∧
      idx.length = fs.countP fileOk ∧
      errs.length = fs.countP (fun f => !fileOk f) := by
  have h := loadFold_counts mt fs {} (fun b _ => rfl) hdist
  refine ⟨(loadFold mt {} fs).index, (loadFold mt {} fs).errors, ?_, ?_, ?_, ?_⟩
  · simp [load_storage, alistLookup_set_self]
  · simp [load_storage, alistLookup_set_self]
  · simpa using h.1
  · simpa using h.2

/-- Load example: two decodable records with distinct ids and one corrupt
file. -/
def c5FileA : LoadFile :=
  { name := "a.yaml", result := .ok { c2Bookmark with id := "a" } }

def c5FileB : LoadFile :=
  { name := "b.yaml", result := .ok { c2Bookmark with id := "b" } }

def c5FileBad : LoadFile :=
  { name := "bad.yaml", result := .error (.invalidFormat "Invalid YAML format: mapping expected") }

theorem load_completeness_witness :
    ∃ idx errs,
      alistLookup (load_storage {} "work" [c5FileA, c5FileBad, c5FileB]
        mtNone).in_memory_index "work" = some idx ∧
      alistLookup (load_storage {} "work" [c5FileA, c5FileBad, c5FileB]
        mtNone).load_errors "work" = some errs ∧
      idx.length = [c5FileA, c5FileBad, c5FileB].countP fileOk ∧
      errs.length = [c5FileA, c5FileBad, c5FileB].countP (fun f => !fileOk f) :=
  load_completeness {} "work" [c5FileA, c5FileBad, c5FileB] mtNone (by decide)

/- ## C7 -/

/-- Best-available timestamp of a record itself: since `created_at` is always
present, the mtime fallback of `_bookmark_timestamp` is never consulted. -/
def tsOf (b : Bookmark) : DateTime := bookmark_timestamp b none

theorem bookmark_timestamp_mtime_irrel (b : Bookmark) (m : Option DateTime) :
    bookmark_timestamp b m = tsOf b := by
  cases h : b.last_modified <;> simp [bookmark_timestamp, tsOf, tsChain, h]

/-- The decoded records of a file list that carry a given identifier, in
enumeration order. -/
def candidatesFor (fs : List LoadFile) (bid : String) : List Bookmark :=
  (okRecords fs).filter (fun b => b.id == bid)

/-- One conflict-resolution step over same-id candidates, as the load loop
performs it: first record in, later candidate wins when its timestamp is
greater than or equal. -/
def resolveStep (acc : Option Bookmark) (b : Bookmark) : Option Bookmark :=
  match acc with
  | none => some b
  | some e => some (if tsOf e ≤ tsOf b then b else e)

/-- Resolution of a whole candidate list. -/
def resolveAll (acc : Option Bookmark) (bs : List Bookmark) : Option Bookmark :=
  bs.foldl resolveStep acc

theorem loadFold_lookup (mt : String → Option DateTime) (fs : List LoadFile) :
    ∀ (s : LoadState) (bid : String),
      alistLookup (loadFold mt s fs).index bid =
        resolveAll (alistLookup s.index bid) (candidatesFor fs bid) := by
  induction fs with
  | nil => intro s bid; rfl
  | cons f rest ih =>
      intro s bid
      have hfold : loadFold mt s (f :: rest) = loadFold mt (loadStep mt s f) rest := rfl
      cases hf : f.result with
      | error e =>
          have hc : candidatesFor (f :: rest) bid = candidatesFor rest bid := by
            simp [candidatesFor, okRecords_cons_err f rest e hf]
          have hidx : (loadStep mt s f).index = s.index := by
            simp [loadStep, hf]
          rw [hfold, ih, hidx, hc]
      | ok b =>
          have hrec : okRecords (f :: rest) = b :: okRecords rest :=
            okRecords_cons_ok f rest b hf
          by_cases hb : b.id = bid
          · subst hb
            have hc : candidatesFor (f :: rest) b.id =
                b :: candidatesFor rest b.id := by
              simp [candidatesFor, hrec, List.filter_cons]
            rw [hfold, ih, hc]
            have hlk : alistLookup (loadStep mt s f).index b.id =
                resolveStep (alistLookup s.index b.id) b := by
              cases hix : alistLookup s.index b.id with
              | none =>
                  have hidx : (loadStep mt s f).index = alistSet s.index b.id b := by
                    simp [loadStep, hf, hix]
                  rw [hidx, alistLookup_set_self]
                  rfl
              | some ex =>
                  have hidx : (loadStep mt s f).index = alistSet s.index b.id
                      (choose_winner mt ex ((alistLookup s.sources b.id).getD f.name)
                        b f.name) := by
                    simp [loadStep, hf, hix]
                  rw [hidx, alistLookup_set_self]
                  simp [resolveStep, choose_winner, bookmark_timestamp_mtime_irrel]
            rw [hlk]
            rfl
          · have hc : candidatesFor (f :: rest) bid = candidatesFor rest bid := by
              simp [candidatesFor, hrec, List.filter_cons, hb]
            rw [hfold, ih, hc]
            have hlk : alistLookup (loadStep mt s f).index bid =
                alistLookup s.index bid := by
              cases hix : alistLookup s.index b.id with
              | none =>
                  have hidx : (loadStep mt s f).index = alistSet s.index b.id b := by
                    simp [loadStep, hf, hix]
                  rw [hidx, alistLookup_set_ne _ _ _ _ (fun e => hb e.symm)]
              | some ex =>
                  have hidx : (loadStep mt s f).index = alistSet s.index b.id
                      (choose_winner mt ex ((alistLookup s.sources b.id).getD f.name)
                        b f.name) := by
                    simp [loadStep, hf, hix]
                  rw [hidx, alistLookup_set_ne _ _ _ _ (fun e => hb e.symm)]
            rw [hlk]

theorem resolveAll_max (bs : List Bookmark) :
    ∀ (acc : Option Bookmark) (w : Bookmark), resolveAll acc bs = some w →
      (acc = some w ∨ w ∈ bs) ∧
      (∀ e, acc = some e → tsOf e ≤ tsOf w) ∧
      (∀ c ∈ bs, tsOf c ≤ tsOf w) := by
  induction bs with
  | nil =>
      intro acc w h
      have haw : acc = some w := h
      refine ⟨Or.inl haw, fun e he => ?_, by simp⟩
      rw [haw] at he
      cases he
      exact Nat.le_refl _
  | cons b rest ih =>
      intro acc w h
      obtain ⟨hmem, hacc, hrest⟩ := ih (resolveStep acc b) w h
      cases acc with
      | none =>
          have hb : tsOf b ≤ tsOf w := hacc b rfl
          refine ⟨?_, fun e he => Option.noConfusion he, fun c hc => ?_⟩
          · rcases hmem with hm | hm
            · cases hm
              exact Or.inr (List.mem_cons_self _ _)
            · exact Or.inr (List.mem_cons_of_mem _ hm)
          · rcases List.mem_cons.mp hc with hcb | hcr
            · exact hcb ▸ hb
            · exact hrest c hcr
      | some e0 =>
          have hm_le : tsOf (if tsOf e0 ≤ tsOf b then b else e0) ≤ tsOf w :=
            hacc _ rfl
          have he0w : tsOf e0 ≤ tsOf w := by
            by_cases hle : tsOf e0 ≤ tsOf b
            · rw [if_pos hle] at hm_le
              exact Nat.le_trans hle hm_le
            · rw [if_neg hle] at hm_le
              exact hm_le
          have hbw : tsOf b ≤ tsOf w := by
            by_cases hle : tsOf e0 ≤ tsOf b
            · rw [if_pos hle] at hm_le
              exact hm_le
            · rw [if_neg hle] at hm_le
              exact Nat.le_trans (Nat.le_of_lt (Nat.lt_of_not_le hle)) hm_le
          refine ⟨?_, fun e he => ?_, fun c hc => ?_⟩
          · rcases hmem with hm | hm
            · have hm' : (if tsOf e0 ≤ tsOf b then b else e0) = w := by
                have hr : resolveStep (some e0) b =
                    some (if tsOf e0 ≤ tsOf b then b else e0) := rfl
                rw [hr] at hm
                exact Option.some.inj hm
              by_cases hle : tsOf e0 ≤ tsOf b
              · rw [if_pos hle] at hm'
                exact Or.inr (by rw [← hm']; exact List.mem_cons_self _ _)
              · rw [if_neg hle] at hm'
                exact Or.inl (by rw [hm'])
            · exact Or.inr (List.mem_cons_of_mem _ hm)
          · cases he
            exact he0w
          · rcases List.mem_cons.mp hc with hcb | hcr
            · exact hcb ▸ hbw
            · exact hrest c hcr

theorem resolveAll_isSome (bs : List Bookmark) :
    ∀ acc : Option Bookmark, acc.isSome = true ∨ bs ≠ [] →
      (resolveAll acc bs).isSome = true := by
  induction bs with
  | nil =>
      intro acc h
      rcases h with h | h
      · exact h
      · exact absurd rfl h
  | cons b rest ih =>
      intro acc h
      have : resolveAll acc (b :: rest) = resolveAll (resolveStep acc b) rest := rfl
      rw [this]
      apply ih
      left
      cases acc <;> simp [resolveStep]

/-- Two decodable records sharing one identifier and one best-available
timestamp but differing in payload. -/
def c7A : Bookmark :=
  { c2Bookmark with id := "dup", title := "A", last_modified := some 5 }

def c7B : Bookmark :=
  { c2Bookmark with id := "dup", title := "B", last_modified := some 5 }

def c7F1 : LoadFile := { name := "one.yaml", result := .ok c7A }

def c7F2 : LoadFile := { name := "two.yaml", result := .ok c7B }

/-- C7 counterexample: the same multiset of record files loaded in two
enumeration orders yields different index contents — on an exact timestamp
tie `_choose_winner` keeps the later-processed candidate (`>=`), so the
winner depends on discovery order. -/
theorem load_order_dependent_cex :
    List.Perm [c7F1, c7F2] [c7F2, c7F1] ∧
    alistLookup (loadFold mtNone {} [c7F1, c7F2]).index "dup" ≠
      alistLookup (loadFold mtNone {} [c7F2, c7F1]).index "dup" := by
  exact ⟨List.Perm.swap _ _ _, by decide⟩

/-- C7 amended: for every root and multiset of record files, the final index
contents after load are identical for every enumeration order of the files,
provided no two successfully decoded records with the same identifier carry
equal best-available timestamps; with an exact tie the later-enumerated
candidate wins, so the outcome is order-dependent there. -/
theorem load_order_invariant (mt : String → Option DateTime)
    (fs1 fs2 : List LoadFile) (hperm : fs1.Perm fs2)
    (hties : ∀ bid, (candidatesFor fs1 bid).Pairwise
      (fun a c => tsOf a ≠ tsOf c)) :
    ∀ bid, alistLookup (loadFold mt {} fs1).index bid =
           alistLookup (loadFold mt {} fs2).index bid := by
  intro bid
  rw [loadFold_lookup mt fs1 {} bid, loadFold_lookup mt fs2 {} bid]
  have hcperm : (candidatesFor fs1 bid).Perm (candidatesFor fs2 bid) :=
    (hperm.filterMap fileRecord).filter _
  cases h1 : resolveAll (alistLookup ({} : LoadState).index bid)
      (candidatesFor fs1 bid) with
  | none =>
      cases h2 : resolveAll (alistLookup ({} : LoadState).index bid)
          (candidatesFor fs2 bid) with
      | none => rfl
      | some w2 =>
          by_cases hc : candidatesFor fs1 bid = []
          · have h0 : candidatesFor fs2 bid = [] :=
              List.Perm.eq_nil (hc ▸ hcperm).symm
            rw [h0] at h2
            exact absurd h2 (by simp [resolveAll, alistLookup])
          · have := resolveAll_isSome (candidatesFor fs1 bid)
              (alistLookup ({} : LoadState).index bid) (Or.inr hc)
            rw [h1] at this
            simp at this
  | some w1 =>
      have hne1 : candidatesFor fs1 bid ≠ [] := by
        intro hc
        rw [hc] at h1
        exact absurd h1 (by simp [resolveAll, alistLookup])
      have hne2 : candidatesFor fs2 bid ≠ [] := by
        intro hc
        exact hne1 (List.Perm.eq_nil (hc ▸ hcperm))
      cases h2 : resolveAll (alistLookup ({} : LoadState).index bid)
          (candidatesFor fs2 bid) with
      | none =>
          have := resolveAll_isSome (candidatesFor fs2 bid)
            (alistLookup ({} : LoadState).index bid) (Or.inr hne2)
          rw [h2] at this
          simp at this
      | some w2 =>
          obtain ⟨hm1, _, hb1⟩ := resolveAll_max _ _ w1 h1
          obtain ⟨hm2, _, hb2⟩ := resolveAll_max _ _ w2 h2
          have hw1 : w1 ∈ candidatesFor fs1 bid := by
            rcases hm1 with hm | hm
            · exact absurd hm (by simp [alistLookup])
            · exact hm
          have hw2 : w2 ∈ candidatesFor fs1 bid := by
            rcases hm2 with hm | hm
            · exact absurd hm (by simp [alistLookup])
            · exact hcperm.mem_iff.mpr hm
          by_cases heq : w1 = w2
          · rw [heq]
          · exfalso
            have hsymm : Symmetric (fun a c : Bookmark => tsOf a ≠ tsOf c) :=
              fun _ _ h e => h e.symm
            have hts : tsOf w1 ≠ tsOf w2 :=
              List.Pairwise.forall hsymm (hties bid) hw1 hw2 heq
            have hle1 : tsOf w1 ≤ tsOf w2 :=
              hb2 w1 (hcperm.mem_iff.mp hw1)
            have hle2 : tsOf w2 ≤ tsOf w1 := hb1 w2 hw2
            exact hts (Nat.le_antisymm hle1 hle2)

/-- Order-invariance example: two decodable records with distinct identifiers
and distinct timestamps, loaded in both orders. -/
def c7WA : Bookmark := { c2Bookmark with id := "wa", created_at := 1 }

def c7WB : Bookmark := { c2Bookmark with id := "wb", created_at := 2 }

def c7WF1 : LoadFile := { name := "wa.yaml", result := .ok c7WA }

def c7WF2 : LoadFile := { name := "wb.yaml", result := .ok c7WB }

theorem load_order_invariant_witness :
    alistLookup (loadFold mtNone {} [c7WF1, c7WF2]).index "wa" =
      alistLookup (loadFold mtNone {} [c7WF2, c7WF1]).index "wa" :=
  load_order_invariant mtNone [c7WF1, c7WF2] [c7WF2, c7WF1]
    (List.Perm.swap _ _ _)
    (fun bid => List.Pairwise.filter _ (by decide))
    "wa"

/- ## C4 -/

theorem get_by_id_entry (st : SMState) (bid : String) (sn : Option String)
    (b : Bookmark) (h : get_bookmark_by_id st bid sn = some b) :
    ∃ p ∈ st.in_memory_index, alistLookup p.2 bid = some b := by
  cases sn with
  | none => exact lookupAllRoots_some _ _ _ h
  | some n =>
      simp only [get_bookmark_by_id] at h
      cases hn : alistLookup st.in_memory_index n with
      | none =>
          rw [hn] at h
          simp [alistLookup] at h
      | some idx =>
          rw [hn] at h
          simp only [Option.getD_some] at h
          exact ⟨(n, idx), alistLookup_mem _ _ _ hn, h⟩

theorem wellFormed_entry (st : SMState) (hwf : wellFormedB st = true)
    (p : String × List (String × Bookmark)) (hp : p ∈ st.in_memory_index)
    (q : String × Bookmark) (hq : q ∈ p.2) :
    (alistLookup st.storage_locations p.1).isSome = true ∧
    q.1 = q.2.id ∧ q.2.storage_location = p.1 := by
  simp only [wellFormedB, List.all_eq_true, Bool.and_eq_true, beq_iff_eq] at hwf
  obtain ⟨h1, h2⟩ := hwf p hp
  obtain ⟨h3, h4⟩ := h2 q hq
  exact ⟨h1, h3, h4⟩

/-- C4: for a stored record, purge (`hard_delete_bookmark`) is rejected with
the SafetyViolation error whenever the record's `deleted` flag is false; when
`deleted` is true it removes the on-disk record file and the index entry, and
a subsequent `get` of that identifier raises NotFound.  The state is assumed
structurally well-formed with the identifier held by at most one root, as the
running system maintains (identifiers are unique within a root and records are
indexed under their own root). -/
theorem hard_delete_safety (st : SMState) (bid : String) (sn : Option String)
    (b : Bookmark) (hwf : wellFormedB st = true)
    (huniq : idRootCount st bid ≤ 1)
    (hget : get_bookmark_by_id st bid sn = some b) :
    (b.deleted = false →
      hard_delete_bookmark st bid sn = .error (.safetyViolation
        s!"Bookmark {bid} must be soft-deleted before hard delete")) ∧
    (b.deleted = true →
      ∃ st', hard_delete_bookmark st bid sn = .ok st' ∧
        (b.storage_location, bid) ∉ st'.files ∧
        st'.files = st.files.filter (fun q => q ≠ (b.storage_location, bid)) ∧
        get_bookmark st' bid none =
          .error (.notFound s!"Bookmark not found: {bid}")) := by
  obtain ⟨p, hp, hlk⟩ := get_by_id_entry st bid sn b hget
  have hq : (bid, b) ∈ p.2 := alistLookup_mem _ _ _ hlk
  obtain ⟨hploc, hbid, hbloc⟩ := wellFormed_entry st hwf p hp (bid, b) hq
  constructor
  · intro hdel
    simp [hard_delete_bookmark, hget, hdel]
  · intro hdel
    have hnn : (alistLookup st.storage_locations b.storage_location).isNone = false := by
      obtain ⟨v, hv⟩ := Option.isSome_iff_exists.mp hploc
      rw [hbloc, hv]
      rfl
    refine ⟨{ st with
        files := st.files.filter (fun q => q ≠ (b.storage_location, bid))
        in_memory_index := st.in_memory_index.map
          (fun q => if q.1 = b.storage_location then (q.1, alistRemove q.2 bid) else q) },
      ?_, ?_, rfl, ?_⟩
    · simp [hard_delete_bookmark, hget, hdel, delete_bookmark_file, hnn]
    · simp [List.mem_filter]
    · have hnone : lookupAllRoots (st.in_memory_index.map
          (fun q => if q.1 = b.storage_location then (q.1, alistRemove q.2 bid) else q))
          bid = none := by
        apply lookupAllRoots_none
        intro q' hq'
        obtain ⟨q0, hq0, hmap⟩ := List.mem_map.mp hq'
        by_cases hk : q0.1 = b.storage_location
        · rw [if_pos hk] at hmap
          rw [← hmap]
          exact alistRemove_lookup_self _ _
        · rw [if_neg hk] at hmap
          rw [← hmap]
          cases hcase : alistLookup q0.2 bid with
          | none => rfl
          | some c =>
              exfalso
              have hqp : q0 ≠ p := by
                intro e
                rw [e] at hk
                exact hk hbloc.symm
              have h2le : 2 ≤ st.in_memory_index.countP
                  (fun q => (alistLookup q.2 bid).isSome) :=
                countP_two_le hp hq0 (Ne.symm hqp)
                  (by rw [hlk]; rfl) (by rw [hcase]; rfl)
              rw [idRootCount] at huniq
              omega
      simp only [get_bookmark, get_bookmark_by_id]
      rw [hnone]

/-- Soft-deleted record stored in the purge example state. -/
def c4Bookmark : Bookmark :=
  { c2Bookmark with id := "id-9", deleted := true, deleted_at := some 4 }

def c4State : SMState :=
  { storage_locations := [("work", { name := "work", path := "/tmp/work" })]
    in_memory_index := [("work", [("id-9", c4Bookmark)])]
    files := [("work", "id-9")] }

theorem hard_delete_safety_witness :
    ∃ st', hard_delete_bookmark c4State "id-9" none = .ok st' ∧
      (c4Bookmark.storage_location, "id-9") ∉ st'.files ∧
      st'.files = c4State.files.filter
        (fun q => q ≠ (c4Bookmark.storage_location, "id-9")) ∧
      get_bookmark st' "id-9" none =
        .error (.notFound s!"Bookmark not found: id-9") :=
  (hard_delete_safety c4State "id-9" none c4Bookmark (by decide) (by decide)
    (by decide)).2 rfl

/- ## C1 -/

/-- C1: for every valid record — one that pydantic validation has produced, a
fixed point of the model's validators — decoding the encoding yields the
record back: `deserialize_bookmark` of `serialize_bookmark` is the identity on
valid records. -/
theorem decode_encode_roundtrip (freshId : String) (now : DateTime)
    (b : Bookmark) (h : validBookmark b = true) :
    deserialize_bookmark freshId now (serialize_bookmark b) = .ok b := by
  rw [validBookmark, decide_eq_true_eq] at h
  obtain ⟨hurl, ht1, ht2, htv, hkw, htg, hfp, hdesc⟩ := h
  have hlen : (decide (b.title.length < 1) || decide (500 < b.title.length))
      = false := by
    simp only [Bool.or_eq_false_iff, decide_eq_false_iff_not]
    omega
  have hmk : mkBookmark freshId now (dumpBookmark b) = .ok b := by
    cases hbd : b.description with
    | none =>
        simp [mkBookmark, dumpBookmark, hurl, htv, hkw, htg, hfp, hbd, hlen,
          bind, Except.bind]
        rw [if_neg (show ¬(b.title.length = 0 ∨ 500 < b.title.length) by omega)]
        rw [← hbd]
    | some s =>
        have hsl : ¬(5000 < s.length) := by
          rw [hbd] at hdesc
          simp at hdesc
          omega
        simp [mkBookmark, dumpBookmark, hurl, htv, hkw, htg, hfp, hbd, hlen,
          hsl, bind, Except.bind]
        rw [if_neg (show ¬(b.title.length = 0 ∨ 500 < b.title.length) by omega)]
        rw [← hbd]
  simp [serialize_bookmark, deserialize_bookmark, hmk]

/-- Concrete valid record exercising the round-trip. -/
def c1Bookmark : Bookmark :=
  { id := "b1", url := "https://example.com/x", title := "Example",
    keywords := ["k1", "k2"], created_at := 10, description := some "notes",
    tags := ["t"], folder_path := some "dev/python", last_modified := some 11,
    last_accessed := none, deleted := false, deleted_at := none,
    favicon_path := none, screenshot_path := none, storage_location := "work" }

theorem decode_encode_roundtrip_witness :
    validBookmark c1Bookmark = true ∧
    deserialize_bookmark "fresh" 0 (serialize_bookmark c1Bookmark) =
      .ok c1Bookmark :=
  ⟨by decide, decode_encode_roundtrip "fresh" 0 c1Bookmark (by decide)⟩
